import Mathlib

/-!
Verification development for the `log` repository (embedded log-shipping
pipeline).  The Go source is shallowly embedded: pure functions become Lean
functions, the stateful worker loops become explicit step functions over
state types, and the filesystem (failover directory, log-file folder) is
modelled as explicit association lists threaded through the functions.
External libraries (gzip, HTTP) are modelled by their contracts.
-/

namespace Log

/-! ## Data model: `LogEntry` (src/entry.go) -/

/-- Model of an arbitrary JSON value stored in the `Fields` map
(`map[string]any` in Go).  Numbers are modelled as integers rendered in
decimal; this is enough for every claim, which treats field values as
opaque payload. -/
inductive JValue where
  | str (s : String)
  | num (n : Int)
  | bool (b : Bool)
  | null
  deriving DecidableEq, Repr

/-- Go: `type LogLevel string` (src/entry.go line 34). -/
abbrev LogLevel := String

/-- Go: `LevelNone LogLevel = ""` (README, levels declaration). -/
def LevelNone : LogLevel := ""

/-- Model of `LogEntry` (src/entry.go lines 25-31).  The Go `Fields`
map is modelled as an optional association list whose order is the
(sorted-key) order in which `encoding/json` serializes the map; `none`
models a nil map. -/
structure LogEntry where
  AppType : String
  Timestamp : String
  Level : LogLevel
  Message : String
  Fields : Option (List (String × JValue))
  deriving DecidableEq, Repr

/-- Model of `strings.Trim(s, "\n")`: remove leading and trailing
newline characters (interior newlines are kept). -/
def trimNewlines (s : String) : String :=
  String.mk (((s.data.dropWhile (· = '\n')).reverse.dropWhile (· = '\n')).reverse)

/-- Decimal digits of a natural number, most significant first: the model
of the `%d` verb of `fmt.Sprintf`. -/
def decDigits (n : Nat) : List Char :=
  if h : n < 10 then [Char.ofNat (48 + n)]
  else decDigits (n / 10) ++ [Char.ofNat (48 + n % 10)]
decreasing_by exact Nat.div_lt_self (by omega) (by omega)

/-- Decimal rendering of an integer (model of `%d` / `encoding/json`
number output for integers). -/
def decIntChars (n : Int) : List Char :=
  if n < 0 then '-' :: decDigits n.natAbs else decDigits n.natAbs

/-- Model of the escaping `encoding/json` applies to one character inside
a JSON string: quote, backslash, the usual control-character escapes, the
HTML-unsafe characters, and a `\u00XX` escape for remaining control
characters. -/
def jsonEscapeChar (c : Char) : List Char :=
  if c = '"' then ['\\', '"']
  else if c = '\\' then ['\\', '\\']
  else if c = '\n' then ['\\', 'n']
  else if c = '\r' then ['\\', 'r']
  else if c = '\t' then ['\\', 't']
  else if c = '<' then ['\\', 'u', '0', '0', '3', 'c']
  else if c = '>' then ['\\', 'u', '0', '0', '3', 'e']
  else if c = '&' then ['\\', 'u', '0', '0', '2', '6']
  else if c.toNat < 32 then
    ['\\', 'u', '0', '0',
      Char.ofNat (if c.toNat / 16 < 10 then 48 + c.toNat / 16 else 87 + c.toNat / 16),
      Char.ofNat (if c.toNat % 16 < 10 then 48 + c.toNat % 16 else 87 + c.toNat % 16)]
  else [c]

/-- JSON string literal for `s`, with escaping. -/
def jsonQuote (s : String) : String :=
  String.mk ('"' :: s.data.foldr (fun c acc => jsonEscapeChar c ++ acc) ['"'])

/-- Serialization of one `JValue` (model of `encoding/json` on the
values stored in `Fields`). -/
def marshalJValue : JValue → String
  | .str s => jsonQuote s
  | .num n => String.mk (decIntChars n)
  | .bool true => "true"
  | .bool false => "false"
  | .null => "null"

/-- Comma-separated serialization of the `Fields` bindings. -/
def marshalFieldsItems : List (String × JValue) → String
  | [] => ""
  | [p] => jsonQuote p.1 ++ ":" ++ marshalJValue p.2
  | p :: q :: rest =>
    jsonQuote p.1 ++ ":" ++ marshalJValue p.2 ++ "," ++
      marshalFieldsItems (q :: rest)

/-- Serialization of the `Fields` map as a JSON object. -/
def marshalFieldsObj (fs : List (String × JValue)) : String :=
  "\x7b" ++ marshalFieldsItems fs ++ "\x7d"

/-- Model of `json.Marshal` on a `LogEntry`: the struct tags of
src/entry.go lines 26-30 fix the key names and their order; `omitempty`
drops a nil or empty `Fields` map. -/
def marshalLogEntry (e : LogEntry) : String :=
  "\x7b" ++
    "\"app_type\":" ++ jsonQuote e.AppType ++
    ",\"@timestamp\":" ++ jsonQuote e.Timestamp ++
    ",\"level\":" ++ jsonQuote e.Level ++
    ",\"message\":" ++ jsonQuote e.Message ++
    (match e.Fields with
      | none => ""
      | some [] => ""
      | some fs => ",\"fields\":" ++ marshalFieldsObj fs) ++
  "\x7d"

/-- Model of the `Json` method (src/entry.go lines 71-87).  The Go method
has a pointer receiver and assigns `entry.Message = strings.Trim(entry.Message, "\n")`
before marshalling, i.e. it mutates the entry; the mutation is made
explicit by returning the updated entry next to the produced JSON. -/
def entryJson (e : LogEntry) : String × LogEntry :=
  let e' := { e with Message := trimNewlines e.Message }
  (marshalLogEntry e', e')

/-- Rendering of the `Fields` map by the `%v` verb (`map[k:v ...]`),
used by the `String` method. -/
def fieldsVerb (fs : List (String × JValue)) : String :=
  "map[" ++ String.intercalate " "
    (fs.map (fun p => p.1 ++ ":" ++ marshalJValue p.2)) ++ "]"

/-- Model of `%-36s`: left-justify in a field of width 36. -/
def padRight36 (s : String) : String :=
  s ++ String.mk (List.replicate (36 - s.length) ' ')

/-- Model of the `String` method (src/entry.go lines 45-65).  It reads
the entry's fields but assigns none of them: in the embedding it is a
pure function of the entry. -/
def entryString (e : LogEntry) : String :=
  (padRight36 e.Timestamp) ++
  (if e.Level = LevelNone then "" else "[" ++ e.Level ++ "] ") ++
  trimNewlines e.Message ++
  (match e.Fields with
    | none => ""
    | some fs => ", fields: " ++ fieldsVerb fs)

/-! ## Failover store (src, `es` network sink file) -/

/-- Abstract content of one entry of the failover directory, as the rest
of the pipeline can observe it: a well-formed record (a JSON array that
unmarshals to a batch), a corrupt file (unmarshal fails), an unreadable
file (read fails), or a directory / non-record file (its content is never
read by the pipeline). -/
inductive Content where
  | batch (entries : List LogEntry)
  | corrupt
  | unreadable
  | other
  deriving DecidableEq, Repr

/-- The failover directory: a listing of names paired with their
observable content.  `os.ReadDir` counts every entry of this list;
`filepath.Glob` filters it by name. -/
abbrev Dir := List (String × Content)

/-- Configuration fields of `EsConfig` relevant to the failover store. -/
structure EsConfig where
  ES_URL : String
  ES_API_KEY : String
  ES_INDEX_NAME : String
  EntriesToHold : Nat
  MaxFailoverFiles : Nat
  FailoverDir : String
  deriving Repr

/-- Suffix test on strings, character-list based (executable in the
kernel): the model of matching a name against the glob `*.json`. -/
def strEndsWith (s post : String) : Bool :=
  List.isSuffixOf post.data s.data

/-- Names matched by `filepath.Glob(filepath.Join(dir, "*.json"))`: the
directory entries whose name ends in `.json`. -/
def jsonFiles (dir : Dir) : List String :=
  (dir.map Prod.fst).filter (fun n => strEndsWith n ".json")

/-- Content of the named file, as `os.ReadFile` plus `json.Unmarshal`
would observe it. -/
def findContent (dir : Dir) (n : String) : Option Content :=
  (dir.find? (fun p => p.1 == n)).map Prod.snd

/-- Model of `os.Remove(name)` on the directory listing. -/
def removeFile (dir : Dir) (n : String) : Dir :=
  dir.filter (fun p => p.1 ≠ n)

/-- Go: `fmt.Sprintf("batch-%d.json", time.Now().UnixNano())`
(saveBatchToDisk). -/
def batchFileName (n : Nat) : String :=
  "batch-" ++ String.mk (decDigits n) ++ ".json"

/-- Model of `saveBatchToDisk` (network-sink file, lines 214-239).
`readDirOk` / `writeOk` model success of `os.ReadDir` / `os.WriteFile`;
`newName` is the `batch-<unix-nanoseconds>.json` name derived from the
current clock.  On success the new record is appended to the listing;
every error path leaves the directory untouched. -/
def saveBatchToDisk (cfg : EsConfig) (readDirOk writeOk : Bool) (dir : Dir)
    (newName : String) (entries : List LogEntry) : Except String Dir :=
  if cfg.FailoverDir = "" then
    .error "FailoverDir is not configured"
  else if ¬ readDirOk then
    .error "could not read failover directory"
  else if dir.length ≥ cfg.MaxFailoverFiles then
    .error "max failover files limit reached, discarding batch"
  else if ¬ writeOk then
    .error "write failed"
  else
    .ok (dir ++ [(newName, Content.batch entries)])

/-- Result of one `sendOrSave` call: the directory after the call, and
the diagnostics printed to the operator-visible stdout logger.
`terminated` records whether the call ended the worker (it never does:
the Go function has no return of control, no panic and no exit). -/
structure SendOrSaveOut where
  dir : Dir
  diagnostics : List String
  terminated : Bool
  deriving Repr

/-- Model of `sendOrSave` (network-sink file, lines 197-211).  `sendErr`
is the result of the delivery attempt (`none` = delivered). -/
def sendOrSave (cfg : EsConfig) (sendErr : Option String)
    (readDirOk writeOk : Bool) (dir : Dir) (newName : String)
    (entries : List LogEntry) : SendOrSaveOut :=
  match sendErr with
  | none => ⟨dir, [], false⟩
  | some msg =>
    match saveBatchToDisk cfg readDirOk writeOk dir newName entries with
    | .ok dir' =>
      ⟨dir',
       ["error sending log entries to Elasticsearch, saving to disk for retry: " ++ msg,
        "successfully saved failed batch to disk"], false⟩
    | .error saveMsg =>
      ⟨dir,
       ["error sending log entries to Elasticsearch, saving to disk for retry: " ++ msg,
        "CRITICAL: Failed to save batch to disk: " ++ saveMsg], false⟩

/-- Result of one `processFailoverFiles` call.  `selected` is the file
the cycle picked for processing (the head of the sorted glob listing),
`attempted` the batch handed to `sendToElasticsearch` this cycle (with
its file name), `processedOk` the boolean the Go function returns. -/
structure PffOut where
  dir : Dir
  selected : Option String
  attempted : Option (String × List LogEntry)
  processedOk : Bool
  deriving Repr

/-- Model of `processFailoverFiles` (network-sink file, lines 243-284).
`send es = true` models a successful `sendToElasticsearch` call on the
batch `es` during this cycle. -/
def processFailoverFiles (cfg : EsConfig) (dir : Dir)
    (send : List LogEntry → Bool) : PffOut :=
  if cfg.FailoverDir = "" then ⟨dir, none, none, false⟩
  else
    match List.insertionSort (fun a b : String => a ≤ b) (jsonFiles dir) with
    | [] => ⟨dir, none, none, false⟩
    | filePath :: _ =>
      match findContent dir filePath with
      | none => ⟨dir, some filePath, none, false⟩
      | some .unreadable => ⟨dir, some filePath, none, false⟩
      | some .other => ⟨dir, some filePath, none, false⟩
      | some .corrupt => ⟨removeFile dir filePath, some filePath, none, false⟩
      | some (.batch es) =>
        if send es then ⟨removeFile dir filePath, some filePath, some (filePath, es), true⟩
        else ⟨dir, some filePath, some (filePath, es), false⟩

/-! ## Network sink worker (entryHandler select loop) -/

/-- One event the `entryHandler` select loop can wake up on: a new entry
received from the channel, the channel reporting closure, or the
`TimeToHold` ticker firing. -/
inductive WEvent where
  | recv (e : LogEntry)
  | closedChan
  | tick

/-- Observable outcome of one iteration of the select loop. -/
structure StepOut where
  entries : List LogEntry
  flushed : Option (List LogEntry)
  tickerReset : Bool
  terminated : Bool
  deriving Repr

/-- Model of one iteration of the `select` in `entryHandler`
(network-sink file, lines 162-191), acting on the accumulated `entries`
slice.  A flush is a `sendOrSave` call; `flushed` records the batch it
was given. -/
def entryHandlerStep (cfg : EsConfig) (entries : List LogEntry) :
    WEvent → StepOut
  | .recv e =>
    let entries' := entries ++ [e]
    if entries'.length ≥ cfg.EntriesToHold then
      ⟨[], some entries', true, false⟩
    else
      ⟨entries', none, false, false⟩
  | .closedChan =>
    if entries.isEmpty then ⟨entries, none, false, true⟩
    else ⟨entries, some entries, false, true⟩
  | .tick =>
    if entries.isEmpty then ⟨entries, none, false, false⟩
    else ⟨[], some entries, false, false⟩

/-! ## Delivery client (sendToElasticsearch) -/

/-- Outcome of the single `client.Do(req)` call: a transport error, or a
response with a status code, a status line and the result of reading the
body (`io.ReadAll` may itself fail). -/
inductive HttpOutcome where
  | transportError (msg : String)
  | response (statusCode : Nat) (status : String) (bodyRead : Except String String)

/-- Result of one `sendToElasticsearch` call: the error value returned
(`none` = success) and how many HTTP requests were issued. -/
structure SendResult where
  err : Option String
  httpAttempts : Nat
  deriving DecidableEq, Repr

/-- Model of `sendToElasticsearch` (network-sink file, lines 287-354).
`cfg = none` models a nil `e.EsConfig`; otherwise exactly one HTTP
request is issued and its outcome `out` decides the result: HTTP 200 is
success, any other status yields an error carrying the status line and
the body (or the body-read error), and a transport error is wrapped and
returned. -/
def sendToElasticsearch (cfg : Option EsConfig) (out : HttpOutcome) :
    SendResult :=
  match cfg with
  | none => ⟨some "elasticsearch config is not set", 0⟩
  | some _ =>
    match out with
    | .transportError m => ⟨some ("Error sending HTTP request: " ++ m), 1⟩
    | .response statusCode status bodyRead =>
      if statusCode = 200 then ⟨none, 1⟩
      else
        match bodyRead with
        | .error readErr =>
          ⟨some ("Error Response Status: " ++ status ++
                 "\nError reading response body: " ++ readErr), 1⟩
        | .ok body =>
          ⟨some ("Error Response Status: " ++ status ++
                 "\nResponse Body: " ++ body), 1⟩

/-! ## Bulk codec (the NDJSON body built by sendToElasticsearch) -/

/-- Go: `fmt.Sprintf("\x7b \"index\": \x7b \"_index\": \"%s\" \x7d \x7d", e.ES_INDEX_NAME)`,
the action header line emitted before each document. -/
def actionLine (indexName : String) : String :=
  "\x7b \"index\": \x7b \"_index\": \"" ++ indexName ++ "\" \x7d \x7d"

/-- The NDJSON bulk body built by the loop of `sendToElasticsearch`
(network-sink file, lines 296-301): for each entry, the action header
line and the entry's JSON document, each newline-terminated. -/
def bulkBody (indexName : String) : List LogEntry → String
  | [] => ""
  | e :: rest =>
    actionLine indexName ++ "\n" ++ (entryJson e).1 ++ "\n" ++
      bulkBody indexName rest

/-- Opaque gzip container: `compress/gzip` is an external library; its
contract is that decompression recovers the exact compressed bytes. -/
structure Gzipped where
  payload : String
  deriving DecidableEq, Repr

/-- Model of writing `s` through `gzip.NewWriter` and closing it. -/
def gzipCompress (s : String) : Gzipped := ⟨s⟩

/-- Model of gunzipping a gzip stream produced by `gzipCompress`. -/
def gunzip (g : Gzipped) : String := g.payload

/-- Splitting a character stream into newline-separated lines; a
trailing newline does not produce a trailing empty line. -/
def splitNl (cs : List Char) : List (List Char) :=
  cs.foldr
    (fun c acc =>
      if c = '\n' then [] :: acc
      else
        match acc with
        | [] => [[c]]
        | l :: ls => (c :: l) :: ls)
    []

/-- The lines of an NDJSON body. -/
def ndjsonLines (body : String) : List String :=
  (splitNl body.data).map String.mk

/-- Elements at odd positions of a list (0-based): in an NDJSON bulk
body these are the document lines, the even positions being the action
header lines. -/
def oddIdx : List α → List α
  | [] => []
  | [_] => []
  | _ :: b :: rest => b :: oddIdx rest

/-- Decoding the document lines out of an NDJSON bulk body. -/
def ndjsonDocs (body : String) : List String :=
  oddIdx (ndjsonLines body)

/-! ## File sink (src/file.go) -/

/-- The log-file folder as a name-to-content map.  For a `.gz` sibling
the stored string is the content the gzip stream decompresses to (the
gzip contract: compression is lossless), so "sibling `.gz` file created
from the old file's contents" reads as the sibling mapping to the old
content. -/
abbrev FsF := List (String × String)

/-- Look up a file's content. -/
def lookupFs (fs : FsF) (n : String) : Option String :=
  (fs.find? (fun p => p.1 == n)).map Prod.snd

/-- Create or replace a file. -/
def insertFs : FsF → String → String → FsF
  | [], n, c => [(n, c)]
  | p :: fs, n, c => if p.1 = n then (n, c) :: fs else p :: insertFs fs n c

/-- Model of `os.Remove` on the folder. -/
def removeFs (fs : FsF) (n : String) : FsF :=
  fs.filter (fun p => p.1 ≠ n)

/-- Model of `compressFile` (src/file.go lines 161-188): open the source
file (failure if absent), create the `.gz` sibling and copy the content
through a gzip writer.  Returns the folder and the error value. -/
def compressFile (fs : FsF) (name : String) : FsF × Option String :=
  match lookupFs fs name with
  | none => (fs, some "open failed")
  | some c => (insertFs fs (name ++ ".gz") c, none)

/-- Model of the deferred task scheduled by `newLogfile`
(src/file.go lines 146-150): compress the rotated-out file, then remove
the original unconditionally — the removal does not depend on the result
of `compressFile`, whose error is discarded. -/
def compressTask (fs : FsF) (name : String) : FsF :=
  removeFs (compressFile fs name).1 name

/-- File-sink configuration (`FileConfig`); `CreateNewAfter` is a
duration in nanoseconds. -/
structure FileConfig where
  Folder : String
  CreateNewAfter : Nat
  deriving Repr

/-- State owned by the file-sink worker: the folder, the name of the
currently open log file (`none` before the first entry), and the
compression tasks scheduled so far (each holds the rotated-out file's
name). -/
structure FileSinkState where
  fs : FsF
  active : Option String
  pending : List String
  deriving Repr

/-- Model of `newLogfile` (src/file.go lines 117-158).  `createOk`
models success of `os.MkdirAll` and `os.OpenFile`; on failure the state
is unchanged (the old file, if any, stays active).  On success the
previous active file, if any, stops being the active file and a
compression task for it is scheduled, and the new file becomes active
(created empty if absent, `O_CREATE|O_APPEND`). -/
def newLogfile (st : FileSinkState) (createOk : Bool) (newName : String) :
    Except String FileSinkState :=
  if ¬ createOk then .error "error creating log file"
  else
    .ok
      { fs :=
          if (lookupFs st.fs newName).isSome then st.fs
          else insertFs st.fs newName ""
        active := some newName
        pending :=
          match st.active with
          | some old => st.pending ++ [old]
          | none => st.pending }

/-- Append one rendered entry line to the active file. -/
def writeActive (st : FileSinkState) (e : LogEntry) : FileSinkState :=
  match st.active with
  | none => st
  | some n =>
    { st with
        fs := insertFs st.fs n (((lookupFs st.fs n).getD "") ++ entryString e ++ "\n") }

/-- One event the file-sink worker can wake up on. -/
inductive FEvent where
  | recv (e : LogEntry)
  | closedChan

/-- Observable outcome of one iteration of the file-sink worker loop. -/
structure FStepOut where
  st : FileSinkState
  dropped : Bool
  terminated : Bool
  deriving Repr

/-- Model of one iteration of `entryHandler` of the file sink
(src/file.go lines 77-110).  `rotateDue` abstracts the real-time check
`time.Since(f.fCreatedAt) > f.CreateNewAfter`; `createOk` and `newName`
feed `newLogfile` when rotation happens. -/
def fileStep (cfg : FileConfig) (st : FileSinkState) (rotateDue createOk : Bool)
    (newName : String) : FEvent → FStepOut
  | .closedChan => ⟨st, false, true⟩
  | .recv e =>
    match st.active with
    | none =>
      match newLogfile st createOk newName with
      | .error _ => ⟨st, true, false⟩
      | .ok st' => ⟨writeActive st' e, false, false⟩
    | some _ =>
      if cfg.CreateNewAfter > 0 ∧ rotateDue then
        match newLogfile st createOk newName with
        | .error _ => ⟨st, true, false⟩
        | .ok st' => ⟨writeActive st' e, false, false⟩
      else ⟨writeActive st e, false, false⟩

/-! ## Generic association-list helpers -/

/-- Removing entries of another key does not change a lookup. -/
theorem find?_filter_ne {β : Type} (l : List (String × β)) (g f : String)
    (h : g ≠ f) :
    (l.filter (fun p => p.1 ≠ f)).find? (fun p => p.1 == g) =
      l.find? (fun p => p.1 == g) := by
  induction l with
  | nil => rfl
  | cons a l ih =>
    simp only [decide_not] at ih
    by_cases ha : a.1 = f
    · have hg : a.1 ≠ g := by
        rw [ha]
        exact fun hfg => h hfg.symm
      simp [List.filter_cons, List.find?_cons, ha, hg, ih, h, Ne.symm h,
        -List.find?_filter]
    · by_cases hg : a.1 = g
      · simp [List.filter_cons, List.find?_cons, ha, hg, h, Ne.symm h,
          -List.find?_filter]
      · simp [List.filter_cons, List.find?_cons, ha, hg, ih, h, Ne.symm h,
          -List.find?_filter]

/-- A filtered-out key is never found. -/
theorem find?_filter_self {β : Type} (l : List (String × β)) (f : String) :
    (l.filter (fun p => p.1 ≠ f)).find? (fun p => p.1 == f) = none := by
  induction l with
  | nil => rfl
  | cons a l ih =>
    simp only [decide_not] at ih
    by_cases ha : a.1 = f
    · simp [List.filter_cons, List.find?_cons, ha, ih, -List.find?_filter]
    · simp [List.filter_cons, List.find?_cons, ha, ih, -List.find?_filter]

/-- Rebuilding a string from its character list is the identity. -/
theorem mk_data (s : String) : String.mk s.data = s := by
  cases s
  rfl

/-! ## C8: entry immutability (corrected) -/

/-- C8 (counterexample): the claim that serializing an entry with `Json`
leaves every field unchanged is false: on an entry whose message carries
a trailing newline, `Json` assigns the trimmed message through its
pointer receiver (src/entry.go line 74), so the entry is mutated. -/
theorem c8_entry_immutability_cex :
    (entryJson
        { AppType := "TEST", Timestamp := "2025-01-01T00:00:00Z",
          Level := "INFO", Message := "hello\n", Fields := none }).2 ≠
      { AppType := "TEST", Timestamp := "2025-01-01T00:00:00Z",
        Level := "INFO", Message := "hello\n", Fields := none } := by
  decide

/-- C8 (amended): rendering with `String` reads the entry without
assigning any field (it is a pure function of the entry in the
embedding), and `Json` leaves `AppType`, `Timestamp`, `Level` and
`Fields` unchanged but replaces `Message` by its newline-trimmed form;
in particular an entry whose message has no leading or trailing newline
is left completely unchanged by `Json`. -/
theorem c8_entry_immutability (e : LogEntry) :
    ((entryJson e).2.AppType = e.AppType ∧
     (entryJson e).2.Timestamp = e.Timestamp ∧
     (entryJson e).2.Level = e.Level ∧
     (entryJson e).2.Fields = e.Fields) ∧
    (entryJson e).2.Message = trimNewlines e.Message ∧
    (trimNewlines e.Message = e.Message → (entryJson e).2 = e) := by
  refine ⟨⟨rfl, rfl, rfl, rfl⟩, rfl, ?_⟩
  intro h
  simp only [entryJson, h]

/-- C8 (witness): a concrete entry with a clean message is unchanged by
`Json`. -/
theorem c8_entry_immutability_witness :
    (entryJson
        { AppType := "TEST", Timestamp := "2025-01-01T00:00:00Z",
          Level := "INFO", Message := "hello", Fields := none }).2 =
      { AppType := "TEST", Timestamp := "2025-01-01T00:00:00Z",
        Level := "INFO", Message := "hello", Fields := none } :=
  (c8_entry_immutability
      { AppType := "TEST", Timestamp := "2025-01-01T00:00:00Z",
        Level := "INFO", Message := "hello", Fields := none }).2.2 (by decide)

/-! ## C2: failover store bound -/

/-- C2: when the failover directory already holds at least
`MaxFailoverFiles` entries, `saveBatchToDisk` errors out (the new —
i.e. newest — batch is dropped and no record is written, the listing is
left untouched); with strictly fewer entries and working I/O it appends
exactly one new record holding exactly the failed batch in its original
order. -/
theorem c2_failover_store_bound (cfg : EsConfig) (dir : Dir)
    (newName : String) (batch : List LogEntry)
    (hfd : cfg.FailoverDir ≠ "") :
    (dir.length ≥ cfg.MaxFailoverFiles →
       ∀ rOk wOk, ∃ msg,
         saveBatchToDisk cfg rOk wOk dir newName batch = .error msg) ∧
    (dir.length < cfg.MaxFailoverFiles →
       saveBatchToDisk cfg true true dir newName batch =
         .ok (dir ++ [(newName, Content.batch batch)])) := by
  constructor
  · intro hge rOk wOk
    cases rOk <;> simp [saveBatchToDisk, hfd, hge]
  · intro hlt
    simp [saveBatchToDisk, hfd, Nat.not_le.mpr hlt]

/-- C2 (witness): with the single-file cap already consumed by one
entry, a fresh batch is dropped; on an empty directory it is stored. -/
theorem c2_failover_store_bound_witness :
    (∃ msg,
      saveBatchToDisk ⟨"u", "k", "i", 1000, 1, "/tmp/f"⟩ true true
        [("batch-1.json", Content.corrupt)] "batch-2.json" [] =
        .error msg) ∧
    saveBatchToDisk ⟨"u", "k", "i", 1000, 1, "/tmp/f"⟩ true true
        [] "batch-2.json" [] =
      .ok [("batch-2.json", Content.batch [])] :=
  ⟨(c2_failover_store_bound ⟨"u", "k", "i", 1000, 1, "/tmp/f"⟩
      [("batch-1.json", Content.corrupt)] "batch-2.json" [] (by decide)).1
      (by decide) true true,
   (c2_failover_store_bound ⟨"u", "k", "i", 1000, 1, "/tmp/f"⟩
      [] "batch-2.json" [] (by decide)).2 (by decide)⟩

/-! ## C3: batching triggers -/

/-- C3: the network-sink worker flushes exactly when the batch reaches
`EntriesToHold` on a receive, or when the ticker fires on a non-empty
batch; a size-triggered flush resets the ticker, a tick on an empty
batch flushes nothing, and after any flush of a still-running worker the
accumulated batch is empty. -/
theorem c3_batching_triggers (cfg : EsConfig) (entries : List LogEntry)
    (e : LogEntry) :
    (entries.length + 1 ≥ cfg.EntriesToHold →
       entryHandlerStep cfg entries (.recv e) =
         ⟨[], some (entries ++ [e]), true, false⟩) ∧
    (entries.length + 1 < cfg.EntriesToHold →
       entryHandlerStep cfg entries (.recv e) =
         ⟨entries ++ [e], none, false, false⟩) ∧
    (entries ≠ [] →
       entryHandlerStep cfg entries .tick = ⟨[], some entries, false, false⟩) ∧
    (entryHandlerStep cfg [] .tick = ⟨[], none, false, false⟩) ∧
    (∀ ev b, (entryHandlerStep cfg entries ev).flushed = some b →
       (entryHandlerStep cfg entries ev).terminated = true ∨
         (entryHandlerStep cfg entries ev).entries = []) := by
  refine ⟨?_, ?_, ?_, by simp [entryHandlerStep], ?_⟩
  · intro hge
    simp [entryHandlerStep, hge]
  · intro hlt
    simp [entryHandlerStep, Nat.not_le.mpr hlt]
  · intro hne
    simp [entryHandlerStep, hne]
  · intro ev b hb
    cases ev with
    | recv e' =>
      by_cases hge : entries.length + 1 ≥ cfg.EntriesToHold
      · right; simp [entryHandlerStep, hge]
      · simp [entryHandlerStep, hge] at hb
    | closedChan =>
      left
      by_cases hne : entries.isEmpty <;> simp [entryHandlerStep, hne]
    | tick =>
      by_cases hne : entries.isEmpty
      · simp [entryHandlerStep, hne] at hb
      · right; simp [entryHandlerStep, hne]

/-- C3 (witness): with a hold-count of 2, the second received entry
triggers a size flush of both entries and resets the ticker, and a tick
on a singleton batch flushes it. -/
theorem c3_batching_triggers_witness :
    entryHandlerStep ⟨"u", "k", "i", 2, 10, "/tmp/f"⟩
        [{ AppType := "TEST", Timestamp := "t", Level := "INFO",
           Message := "a", Fields := none }]
        (.recv { AppType := "TEST", Timestamp := "t", Level := "INFO",
                 Message := "b", Fields := none }) =
      ⟨[], some
          [{ AppType := "TEST", Timestamp := "t", Level := "INFO",
             Message := "a", Fields := none },
           { AppType := "TEST", Timestamp := "t", Level := "INFO",
             Message := "b", Fields := none }], true, false⟩ :=
  (c3_batching_triggers ⟨"u", "k", "i", 2, 10, "/tmp/f"⟩
      [{ AppType := "TEST", Timestamp := "t", Level := "INFO",
         Message := "a", Fields := none }]
      { AppType := "TEST", Timestamp := "t", Level := "INFO",
        Message := "b", Fields := none }).1 (by decide)

/-! ## C4: flush failure handling -/

/-- C4: when the delivery attempt fails, the batch is handed to
`saveBatchToDisk`; if the save succeeds the resulting directory is the
save's result (the durable copy), and if the save fails the directory is
unchanged — no durable copy of the batch exists — and the failure is
reported on the stdout diagnostic channel with the `CRITICAL` message;
in every case the call leaves the worker running (`terminated` is never
true), and a successful delivery touches neither disk nor diagnostics. -/
theorem c4_flush_failure_handling (cfg : EsConfig) (msg : String)
    (rOk wOk : Bool) (dir : Dir) (newName : String)
    (batch : List LogEntry) :
    (sendOrSave cfg none rOk wOk dir newName batch = ⟨dir, [], false⟩) ∧
    (∀ dir', saveBatchToDisk cfg rOk wOk dir newName batch = .ok dir' →
       sendOrSave cfg (some msg) rOk wOk dir newName batch =
         ⟨dir',
          ["error sending log entries to Elasticsearch, saving to disk for retry: "
             ++ msg,
           "successfully saved failed batch to disk"], false⟩) ∧
    (∀ saveMsg,
       saveBatchToDisk cfg rOk wOk dir newName batch = .error saveMsg →
       sendOrSave cfg (some msg) rOk wOk dir newName batch =
         ⟨dir,
          ["error sending log entries to Elasticsearch, saving to disk for retry: "
             ++ msg,
           "CRITICAL: Failed to save batch to disk: " ++ saveMsg], false⟩) ∧
    (∀ sendErr, (sendOrSave cfg sendErr rOk wOk dir newName batch).terminated
       = false) := by
  refine ⟨rfl, ?_, ?_, ?_⟩
  · intro dir' hok
    simp [sendOrSave, hok]
  · intro saveMsg herr
    simp [sendOrSave, herr]
  · intro sendErr
    cases sendErr with
    | none => rfl
    | some m =>
      simp only [sendOrSave]
      cases saveBatchToDisk cfg rOk wOk dir newName batch <;> rfl

/-- C4 (witness): on a directory that cannot be read, a failed batch is
dropped with the `CRITICAL` diagnostic and the directory untouched. -/
theorem c4_flush_failure_handling_witness :
    sendOrSave ⟨"u", "k", "i", 1000, 10, "/tmp/f"⟩ (some "boom") false true
        [] "batch-2.json" [] =
      ⟨[],
       ["error sending log entries to Elasticsearch, saving to disk for retry: boom",
        "CRITICAL: Failed to save batch to disk: could not read failover directory"],
       false⟩ :=
  (c4_flush_failure_handling ⟨"u", "k", "i", 1000, 10, "/tmp/f"⟩ "boom"
      false true [] "batch-2.json" []).2.2.1
    "could not read failover directory" rfl

/-! ## C6: delivery client result -/

/-- C6: a single delivery attempt succeeds exactly when the HTTP status
code is 200; a transport error is returned as one error value wrapping
the underlying error, a non-200 response as one error value carrying the
status line and the body (or the body-read error), and with the config
set exactly one HTTP request is issued — the client retries nothing. -/
theorem c6_delivery_client_result (cfg : EsConfig) (status : String) :
    (∀ statusCode bodyRead,
       ((sendToElasticsearch (some cfg)
           (.response statusCode status bodyRead)).err = none ↔
         statusCode = 200)) ∧
    (∀ m, sendToElasticsearch (some cfg) (.transportError m) =
       ⟨some ("Error sending HTTP request: " ++ m), 1⟩) ∧
    (∀ statusCode body, statusCode ≠ 200 →
       sendToElasticsearch (some cfg)
           (.response statusCode status (.ok body)) =
         ⟨some ("Error Response Status: " ++ status ++
                "\nResponse Body: " ++ body), 1⟩) ∧
    (∀ statusCode readErr, statusCode ≠ 200 →
       sendToElasticsearch (some cfg)
           (.response statusCode status (.error readErr)) =
         ⟨some ("Error Response Status: " ++ status ++
                "\nError reading response body: " ++ readErr), 1⟩) ∧
    (∀ out, (sendToElasticsearch (some cfg) out).httpAttempts = 1) := by
  refine ⟨?_, fun m => rfl, ?_, ?_, ?_⟩
  · intro statusCode bodyRead
    constructor
    · intro hnone
      by_contra hne
      cases bodyRead <;> simp [sendToElasticsearch, hne] at hnone
    · intro h200
      simp [sendToElasticsearch, h200]
  · intro statusCode body hne
    simp [sendToElasticsearch, hne]
  · intro statusCode readErr hne
    simp [sendToElasticsearch, hne]
  · intro out
    cases out with
    | transportError m => rfl
    | response statusCode st bodyRead =>
      by_cases h : statusCode = 200
      · simp [sendToElasticsearch, h]
      · cases bodyRead <;> simp [sendToElasticsearch, h]

/-- C6 (witness): a 404 with a readable body yields the status-and-body
error, and a 200 succeeds. -/
theorem c6_delivery_client_result_witness :
    sendToElasticsearch (some ⟨"u", "k", "i", 1000, 10, "/tmp/f"⟩)
        (.response 404 "404 Not Found" (.ok "oops")) =
      ⟨some ("Error Response Status: 404 Not Found" ++
             "\nResponse Body: oops"), 1⟩ ∧
    (sendToElasticsearch (some ⟨"u", "k", "i", 1000, 10, "/tmp/f"⟩)
        (.response 200 "200 OK" (.ok ""))).err = none := by
  constructor
  · exact (c6_delivery_client_result ⟨"u", "k", "i", 1000, 10, "/tmp/f"⟩
      "404 Not Found").2.2.1 404 "oops" (by decide)
  · exact ((c6_delivery_client_result ⟨"u", "k", "i", 1000, 10, "/tmp/f"⟩
      "200 OK").1 200 (.ok "")).mpr rfl

/-! ## C10: failover capacity is consumed by any directory entry -/

/-- C10: a directory entry whose name does not end in `.json` is
invisible to the retry glob (never selected, and it survives every
retry cycle unchanged), yet it is counted by the `os.ReadDir`-based cap
check of `saveBatchToDisk`: once the total entry count reaches
`MaxFailoverFiles`, new batches are dropped no matter how few of the
entries are real records. -/
theorem c10_capacity_consumed_by_any_entry (cfg : EsConfig) (dir : Dir)
    (junkName : String) (c : Content) (send : List LogEntry → Bool)
    (hj : (junkName, c) ∈ dir) (hext : strEndsWith junkName ".json" = false) :
    junkName ∉ jsonFiles dir ∧
    (junkName, c) ∈ (processFailoverFiles cfg dir send).dir ∧
    (dir.length ≥ cfg.MaxFailoverFiles →
       ∀ rOk wOk newName batch, ∃ msg,
         saveBatchToDisk cfg rOk wOk dir newName batch = .error msg) := by
  have hnotjson : junkName ∉ jsonFiles dir := by
    intro hmem
    have h2 : strEndsWith junkName ".json" = true := by
      have h3 := hmem
      simp [jsonFiles, List.mem_filter] at h3
      exact h3.2
    rw [hext] at h2
    exact Bool.false_ne_true h2
  refine ⟨hnotjson, ?_, ?_⟩
  · unfold processFailoverFiles
    by_cases hfd : cfg.FailoverDir = ""
    · simpa [hfd] using hj
    · rw [if_neg hfd]
      cases hsort : List.insertionSort (fun a b : String => a ≤ b)
          (jsonFiles dir) with
      | nil => simpa using hj
      | cons filePath rest =>
        have hfp : filePath ∈ jsonFiles dir := by
          have : filePath ∈ List.insertionSort (fun a b : String => a ≤ b)
              (jsonFiles dir) := by
            rw [hsort]
            exact List.mem_cons_self _ _
          exact (List.mem_insertionSort _).mp this
        have hne : junkName ≠ filePath := fun hEq => hnotjson (hEq ▸ hfp)
        have hsurv : (junkName, c) ∈ removeFile dir filePath := by
          simp only [removeFile, List.mem_filter]
          exact ⟨hj, by simpa using hne⟩
        cases hc : findContent dir filePath with
        | none => simpa [hc] using hj
        | some cc =>
          cases cc with
          | batch es =>
            cases hs : send es
            · simpa [hc, hs] using hj
            · simpa [hc, hs] using hsurv
          | corrupt => simpa [hc] using hsurv
          | unreadable => simpa [hc] using hj
          | other => simpa [hc] using hj
  · intro hge rOk wOk newName batch
    by_cases hfd : cfg.FailoverDir = ""
    · exact ⟨"FailoverDir is not configured", by simp [saveBatchToDisk, hfd]⟩
    · cases rOk <;> simp [saveBatchToDisk, hfd, hge]

/-- C10 (witness): a lone subdirectory entry named `archive` fills a cap
of 1: it is not a retry candidate, survives a retry cycle, and blocks a
new batch from being saved. -/
theorem c10_capacity_consumed_by_any_entry_witness :
    "archive" ∉ jsonFiles [("archive", Content.other)] ∧
    ("archive", Content.other) ∈
      (processFailoverFiles ⟨"u", "k", "i", 1000, 1, "/tmp/f"⟩
        [("archive", Content.other)] (fun _ => false)).dir ∧
    (∀ rOk wOk newName batch, ∃ msg,
       saveBatchToDisk ⟨"u", "k", "i", 1000, 1, "/tmp/f"⟩ rOk wOk
         [("archive", Content.other)] newName batch = .error msg) := by
  have h := c10_capacity_consumed_by_any_entry
      ⟨"u", "k", "i", 1000, 1, "/tmp/f"⟩ [("archive", Content.other)]
      "archive" Content.other (fun _ => false)
      (by decide) (by decide)
  exact ⟨h.1, h.2.1, fun rOk wOk newName batch => h.2.2 (by decide) rOk wOk newName batch⟩

/-! ## C5: failover record disposition -/

/-- Lookups of other names are unchanged by a removal. -/
theorem findContent_removeFile_ne (dir : Dir) (g f : String) (h : g ≠ f) :
    findContent (removeFile dir f) g = findContent dir g := by
  unfold findContent removeFile
  rw [find?_filter_ne dir g f h]

/-- The removed name is gone. -/
theorem findContent_removeFile_self (dir : Dir) (f : String) :
    findContent (removeFile dir f) f = none := by
  unfold findContent removeFile
  rw [find?_filter_self]
  rfl

/-- C5: in a retry cycle that selects record `f` (the head of the sorted
glob listing), the file is deleted exactly when its batch is resent
successfully or its deserialization fails; a failed delivery leaves the
whole directory unchanged (the record is retried next cycle), a corrupt
record is deleted without any delivery attempt, an unreadable record is
left alone, and no cycle ever mutates a record in place: every other
file keeps its exact content, and the selected file is afterwards either
gone or byte-identical. -/
theorem c5_record_disposition (cfg : EsConfig) (dir : Dir)
    (send : List LogEntry → Bool) (f : String) (rest : List String)
    (hfd : cfg.FailoverDir ≠ "")
    (hsort : List.insertionSort (fun a b : String => a ≤ b) (jsonFiles dir)
      = f :: rest) :
    (findContent dir f = some .corrupt →
       (processFailoverFiles cfg dir send).dir = removeFile dir f ∧
       (processFailoverFiles cfg dir send).attempted = none ∧
       (processFailoverFiles cfg dir send).processedOk = false) ∧
    (∀ es, findContent dir f = some (.batch es) → send es = true →
       (processFailoverFiles cfg dir send).dir = removeFile dir f ∧
       (processFailoverFiles cfg dir send).processedOk = true) ∧
    (∀ es, findContent dir f = some (.batch es) → send es = false →
       (processFailoverFiles cfg dir send).dir = dir ∧
       (processFailoverFiles cfg dir send).attempted = some (f, es) ∧
       (processFailoverFiles cfg dir send).processedOk = false) ∧
    (findContent dir f = some .unreadable →
       (processFailoverFiles cfg dir send).dir = dir) ∧
    (∀ g, g ≠ f →
       findContent (processFailoverFiles cfg dir send).dir g =
         findContent dir g) ∧
    (findContent (processFailoverFiles cfg dir send).dir f = none ∨
       findContent (processFailoverFiles cfg dir send).dir f =
         findContent dir f) := by
  unfold processFailoverFiles
  rw [if_neg hfd, hsort]
  refine ⟨?_, ?_, ?_, ?_, ?_, ?_⟩
  · intro hc
    simp [hc]
  · intro es hc hs
    simp [hc, hs]
  · intro es hc hs
    simp [hc, hs]
  · intro hc
    simp [hc]
  · intro g hg
    cases hc : findContent dir f with
    | none => simp [hc]
    | some cc =>
      cases cc with
      | batch es =>
        cases hs : send es
        · simp [hc, hs]
        · simp [hc, hs, findContent_removeFile_ne dir g f hg]
      | corrupt =>
        simp [hc, findContent_removeFile_ne dir g f hg]
      | unreadable => simp [hc]
      | other => simp [hc]
  · cases hc : findContent dir f with
    | none => right; simp [hc]
    | some cc =>
      cases cc with
      | batch es =>
        cases hs : send es
        · right; simp [hc, hs]
        · left
          simp [hc, hs, findContent_removeFile_self dir f]
      | corrupt =>
        left
        simp [hc, findContent_removeFile_self dir f]
      | unreadable => right; simp [hc]
      | other => right; simp [hc]

/-- C5 (witness): a one-record directory whose batch is resent
successfully has its record deleted and the cycle reports success. -/
theorem c5_record_disposition_witness :
    (processFailoverFiles ⟨"u", "k", "i", 1000, 10, "/tmp/f"⟩
        [("b.json", Content.batch [])] (fun _ => true)).dir =
      removeFile [("b.json", Content.batch [])] "b.json" ∧
    (processFailoverFiles ⟨"u", "k", "i", 1000, 10, "/tmp/f"⟩
        [("b.json", Content.batch [])] (fun _ => true)).processedOk =
      true :=
  (c5_record_disposition ⟨"u", "k", "i", 1000, 10, "/tmp/f"⟩
      [("b.json", Content.batch [])] (fun _ => true) "b.json" []
      (by decide) (by decide)).2.1 [] (by decide) rfl

/-! ## C9: rotated-file compression -/

/-- An upserted file is found with its new content. -/
theorem lookupFs_insertFs_self (fs : FsF) (n c : String) :
    lookupFs (insertFs fs n c) n = some c := by
  induction fs with
  | nil => simp [insertFs, lookupFs]
  | cons p fs ih =>
    by_cases hp : p.1 = n
    · simp [insertFs, lookupFs, hp]
    · simp [insertFs, lookupFs, hp, List.find?_cons] at ih ⊢
      exact ih

/-- After removal a name is absent. -/
theorem lookupFs_removeFs_self (fs : FsF) (n : String) :
    lookupFs (removeFs fs n) n = none := by
  unfold lookupFs removeFs
  rw [find?_filter_self]
  rfl

/-- Removal of another name does not change a lookup. -/
theorem lookupFs_removeFs_ne (fs : FsF) (g n : String) (h : g ≠ n) :
    lookupFs (removeFs fs n) g = lookupFs fs g := by
  unfold lookupFs removeFs
  rw [find?_filter_ne fs g n h]

/-- A name is never its own `.gz` sibling. -/
theorem gz_sibling_ne (old : String) : old ++ ".gz" ≠ old := by
  intro h
  have hlen : (old ++ ".gz").length = old.length := congrArg String.length h
  rw [String.length_append] at hlen
  have h3 : (".gz" : String).length = 3 := rfl
  rw [h3] at hlen
  omega

/-- C9: a successful rotation makes the new file active and appends the
previously active file to the scheduled compression tasks; once the
deferred task runs, the `.gz` sibling holds exactly the old file's
content (when the old file was readable) and the uncompressed original
is gone — it is removed even when compression failed because the source
could not be opened — and the worker's handling of further entries never
terminates it, whatever the rotation and compression outcomes were. -/
theorem c9_rotation_compression (cfg : FileConfig) (st : FileSinkState)
    (old newName : String) :
    (st.active = some old → ∀ st', newLogfile st true newName = .ok st' →
       st'.pending = st.pending ++ [old] ∧ st'.active = some newName) ∧
    (∀ fs c, lookupFs fs old = some c →
       lookupFs (compressTask fs old) (old ++ ".gz") = some c) ∧
    (∀ fs, lookupFs (compressTask fs old) old = none) ∧
    (∀ rotateDue createOk nm e,
       (fileStep cfg st rotateDue createOk nm (.recv e)).terminated =
         false) := by
  refine ⟨?_, ?_, ?_, ?_⟩
  · intro ha st' hok
    have hval : newLogfile st true newName = Except.ok
        { fs := if (lookupFs st.fs newName).isSome then st.fs
                else insertFs st.fs newName ""
          active := some newName
          pending := st.pending ++ [old] } := by
      unfold newLogfile
      rw [ha]
      rfl
    rw [hval] at hok
    injection hok with h
    subst h
    exact ⟨rfl, rfl⟩
  · intro fs c hc
    unfold compressTask compressFile
    rw [hc]
    simp only
    rw [lookupFs_removeFs_ne _ _ _ (gz_sibling_ne old)]
    exact lookupFs_insertFs_self fs (old ++ ".gz") c
  · intro fs
    unfold compressTask compressFile
    cases hc : lookupFs fs old <;> simp only [] <;>
      exact lookupFs_removeFs_self _ old
  · intro rotateDue createOk nm e
    cases ha : st.active with
    | none =>
      cases hok : newLogfile st createOk nm <;>
        simp [fileStep, ha, hok]
    | some cur =>
      by_cases hr : cfg.CreateNewAfter > 0 ∧ rotateDue = true
      · cases hok : newLogfile st createOk nm <;>
          simp [fileStep, ha, hr, hok]
      · simp [fileStep, ha, hr]

/-- C9 (witness): compressing a concrete rotated-out file yields the
sibling with identical content, and the original is removed. -/
theorem c9_rotation_compression_witness :
    lookupFs (compressTask [("app_1.log", "line1\n")] "app_1.log")
      ("app_1.log" ++ ".gz") = some "line1\n" ∧
    lookupFs (compressTask [("app_1.log", "line1\n")] "app_1.log")
      "app_1.log" = none :=
  ⟨(c9_rotation_compression ⟨"/tmp", 0⟩ ⟨[], none, []⟩ "app_1.log"
      "new.log").2.1 [("app_1.log", "line1\n")] "line1\n" rfl,
   (c9_rotation_compression ⟨"/tmp", 0⟩ ⟨[], none, []⟩ "app_1.log"
      "new.log").2.2.1 [("app_1.log", "line1\n")]⟩

/-! ## C1: failover retry order -/

/-- Unfolding `decDigits` below ten. -/
theorem decDigits_lt_ten {n : Nat} (h : n < 10) :
    decDigits n = [Char.ofNat (48 + n)] := by
  rw [decDigits.eq_def, dif_pos h]

/-- Unfolding `decDigits` at ten and above. -/
theorem decDigits_ge_ten {n : Nat} (h : 10 ≤ n) :
    decDigits n = decDigits (n / 10) ++ [Char.ofNat (48 + n % 10)] := by
  rw [decDigits.eq_def, dif_neg (Nat.not_lt.mpr h)]

/-- A decimal rendering is never empty. -/
theorem decDigits_length_pos (n : Nat) : 1 ≤ (decDigits n).length := by
  by_cases h : n < 10
  · rw [decDigits_lt_ten h]
    simp
  · rw [decDigits_ge_ten (Nat.le_of_not_lt h)]
    simp

/-- A number in `[10^k, 10^(k+1))` renders with exactly `k+1` digits. -/
theorem decDigits_length_of_range :
    ∀ k n, 10 ^ k ≤ n → n < 10 ^ (k + 1) → (decDigits n).length = k + 1 := by
  intro k
  induction k with
  | zero =>
    intro n h1 h2
    rw [decDigits_lt_ten (by simpa using h2)]
    rfl
  | succ k ih =>
    intro n h1 h2
    have h10 : 10 ≤ n := by
      calc (10 : Nat) = 10 ^ 1 := (pow_one 10).symm
      _ ≤ 10 ^ (k + 1) := Nat.pow_le_pow_right (by norm_num) (by omega)
      _ ≤ n := h1
    rw [decDigits_ge_ten h10, List.length_append]
    have hdiv1 : 10 ^ k ≤ n / 10 := by
      rw [Nat.le_div_iff_mul_le (by norm_num)]
      calc 10 ^ k * 10 = 10 ^ (k + 1) := (pow_succ 10 k).symm
      _ ≤ n := h1
    have hdiv2 : n / 10 < 10 ^ (k + 1) := by
      rw [Nat.div_lt_iff_lt_mul (by norm_num)]
      calc n < 10 ^ (k + 1 + 1) := h2
      _ = 10 ^ (k + 1) * 10 := pow_succ 10 (k + 1)
    rw [ih (n / 10) hdiv1 hdiv2]
    simp

/-- Decimal digit characters compare like the digits they render. -/
theorem digitChar_lt :
    ∀ d < 10, ∀ e < 10, d < e →
      Char.ofNat (48 + d) < Char.ofNat (48 + e) := by
  decide

/-- A common prefix preserves strict lexicographic order. -/
theorem lexLt_append_left (p : List Char) {u v : List Char}
    (h : List.Lex (· < ·) u v) : List.Lex (· < ·) (p ++ u) (p ++ v) := by
  induction p with
  | nil => exact h
  | cons c p ih => exact List.Lex.cons ih

/-- Strict lexicographic order between equal-length lists is decided
strictly inside them, so arbitrary suffixes may be appended. -/
theorem lexLt_append_of_eq_length :
    ∀ {u v : List Char}, u.length = v.length → List.Lex (· < ·) u v →
      ∀ w w', List.Lex (· < ·) (u ++ w) (v ++ w') := by
  intro u
  induction u with
  | nil =>
    intro v hlen hlt w w'
    cases v with
    | nil => cases hlt
    | cons b bs => simp at hlen
  | cons a as ih =>
    intro v hlen hlt w w'
    cases v with
    | nil => simp at hlen
    | cons b bs =>
      cases hlt with
      | cons h3 => exact List.Lex.cons (ih (by simpa using hlen) h3 w w')
      | rel hab => exact List.Lex.rel hab

/-- Equal-width decimal renderings compare lexicographically exactly as
the numbers compare. -/
theorem decDigits_lt_of_lt :
    ∀ a b, (decDigits a).length = (decDigits b).length → a < b →
      List.Lex (· < ·) (decDigits a) (decDigits b) := by
  intro a
  induction a using Nat.strong_induction_on with
  | _ a ih =>
    intro b hlen hab
    by_cases ha : a < 10
    · by_cases hb : b < 10
      · rw [decDigits_lt_ten ha, decDigits_lt_ten hb]
        exact List.Lex.rel (digitChar_lt a ha b hb hab)
      · exfalso
        rw [decDigits_lt_ten ha,
          decDigits_ge_ten (Nat.le_of_not_lt hb), List.length_append] at hlen
        have hpos := decDigits_length_pos (b / 10)
        simp only [List.length_singleton] at hlen
        omega
    · have ha' : 10 ≤ a := Nat.le_of_not_lt ha
      by_cases hb : b < 10
      · omega
      · have hb' : 10 ≤ b := Nat.le_of_not_lt hb
        rw [decDigits_ge_ten ha', decDigits_ge_ten hb'] at hlen ⊢
        rw [List.length_append, List.length_append] at hlen
        have hlen' : (decDigits (a / 10)).length =
            (decDigits (b / 10)).length := by simpa using hlen
        rcases Nat.lt_or_ge (a / 10) (b / 10) with hdiv | hdiv
        · exact lexLt_append_of_eq_length hlen'
            (ih (a / 10) (Nat.div_lt_self (by omega) (by omega)) (b / 10)
              hlen' hdiv) _ _
        · have heq : a / 10 = b / 10 :=
            Nat.le_antisymm (Nat.div_le_div_right (Nat.le_of_lt hab)) hdiv
          have hmod : a % 10 < b % 10 := by omega
          rw [heq]
          exact lexLt_append_left _ (List.Lex.rel
            (digitChar_lt (a % 10) (Nat.mod_lt a (by omega))
              (b % 10) (Nat.mod_lt b (by omega)) hmod))

/-- The character list underlying a batch record's file name. -/
theorem batchFileName_data (n : Nat) :
    (batchFileName n).data =
      "batch-".data ++ (decDigits n ++ ".json".data) := by
  unfold batchFileName
  rw [String.data_append, String.data_append, List.append_assoc]

/-- Within the fixed-width era of `UnixNano` timestamps (19 decimal
digits, i.e. any instant from 2001 until the 64-bit nanosecond counter
overflows in 2262), the record file names compare lexicographically
exactly as their timestamps compare. -/
theorem batchFileName_lt {a b : Nat} (ha1 : 10 ^ 18 ≤ a) (ha2 : a < 10 ^ 19)
    (hb1 : 10 ^ 18 ≤ b) (hb2 : b < 10 ^ 19) (hab : a < b) :
    batchFileName a < batchFileName b := by
  have hlena : (decDigits a).length = 19 := decDigits_length_of_range 18 a ha1 ha2
  have hlenb : (decDigits b).length = 19 := decDigits_length_of_range 18 b hb1 hb2
  have key : List.Lex (fun c d : Char => c < d)
      ("batch-".data ++ (decDigits a ++ ".json".data))
      ("batch-".data ++ (decDigits b ++ ".json".data)) :=
    lexLt_append_left _ (lexLt_append_of_eq_length
      (by rw [hlena, hlenb])
      (decDigits_lt_of_lt a b (by rw [hlena, hlenb]) hab) _ _)
  rw [String.lt_iff_toList_lt]
  have hta : (batchFileName a).toList =
      "batch-".data ++ (decDigits a ++ ".json".data) := batchFileName_data a
  have htb : (batchFileName b).toList =
      "batch-".data ++ (decDigits b ++ ".json".data) := batchFileName_data b
  rw [hta, htb]
  exact key

/-- The retry cycle always selects the head of the sorted glob listing. -/
theorem pff_selected (cfg : EsConfig) (dir : Dir)
    (send : List LogEntry → Bool) (f : String) (rest : List String)
    (hfd : cfg.FailoverDir ≠ "")
    (hsort : List.insertionSort (fun a b : String => a ≤ b) (jsonFiles dir)
      = f :: rest) :
    (processFailoverFiles cfg dir send).selected = some f := by
  unfold processFailoverFiles
  rw [if_neg hfd, hsort]
  cases hc : findContent dir f with
  | none => simp [hc]
  | some cc =>
    cases cc with
    | batch es => cases hs : send es <;> simp [hc, hs]
    | corrupt => simp [hc]
    | unreadable => simp [hc]
    | other => simp [hc]

/-- C1: whenever the failover directory holds at least one record, the
retry cycle selects exactly the record with the lexicographically
smallest file name; record names made of era-realistic `UnixNano`
timestamps order lexicographically exactly by age, so of two records
that are both present and both failing delivery, the cycle's one
selection is never the newer one. -/
theorem c1_failover_retry_order (cfg : EsConfig) (dir : Dir)
    (send : List LogEntry → Bool) (a b : Nat)
    (hfd : cfg.FailoverDir ≠ "") (hne : jsonFiles dir ≠ [])
    (ha1 : 10 ^ 18 ≤ a) (ha2 : a < 10 ^ 19)
    (hb1 : 10 ^ 18 ≤ b) (hb2 : b < 10 ^ 19) (hab : a < b) :
    (∃ f, (processFailoverFiles cfg dir send).selected = some f ∧
       f ∈ jsonFiles dir ∧ ∀ g ∈ jsonFiles dir, f ≤ g) ∧
    batchFileName a < batchFileName b ∧
    (batchFileName a ∈ jsonFiles dir → batchFileName b ∈ jsonFiles dir →
       (processFailoverFiles cfg dir send).selected ≠
         some (batchFileName b)) := by
  have hablt : batchFileName a < batchFileName b :=
    batchFileName_lt ha1 ha2 hb1 hb2 hab
  obtain ⟨f, rest, hsort⟩ : ∃ f rest,
      List.insertionSort (fun a b : String => a ≤ b) (jsonFiles dir) =
        f :: rest := by
    cases hs : List.insertionSort (fun a b : String => a ≤ b)
        (jsonFiles dir) with
    | nil =>
      exfalso
      have := List.Perm.length_eq
        (List.perm_insertionSort (fun a b : String => a ≤ b) (jsonFiles dir))
      rw [hs] at this
      cases hj : jsonFiles dir with
      | nil => exact hne hj
      | cons x xs => rw [hj] at this; simp at this
    | cons f rest => exact ⟨f, rest, rfl⟩
  have hself := pff_selected cfg dir send f rest hfd hsort
  have hf_mem : f ∈ jsonFiles dir := by
    have hmem : f ∈ List.insertionSort (fun a b : String => a ≤ b)
        (jsonFiles dir) := by
      rw [hsort]
      exact List.mem_cons_self _ _
    exact (List.mem_insertionSort _).mp hmem
  have hmin : ∀ g ∈ jsonFiles dir, f ≤ g := by
    intro g hg
    have hsorted := List.sorted_insertionSort (fun a b : String => a ≤ b)
      (jsonFiles dir)
    rw [hsort] at hsorted
    have hg' : g ∈ f :: rest := by
      rw [← hsort]
      exact (List.mem_insertionSort _).mpr hg
    rcases List.mem_cons.mp hg' with hEq | hgr
    · exact hEq ▸ le_refl f
    · exact (List.sorted_cons.mp hsorted).1 g hgr
  refine ⟨⟨f, hself, hf_mem, hmin⟩, hablt, ?_⟩
  intro hamem _hbmem hcontra
  rw [hself, Option.some.injEq] at hcontra
  have hle : f ≤ batchFileName a := hmin _ hamem
  rw [hcontra] at hle
  exact absurd hle (not_le_of_lt hablt)

/-- C1 (witness): with one record present the cycle selects it, and the
name of an older era-realistic timestamp sorts before a newer one. -/
theorem c1_failover_retry_order_witness :
    batchFileName (10 ^ 18) < batchFileName (10 ^ 18 + 1) :=
  (c1_failover_retry_order ⟨"u", "k", "i", 1000, 10, "/tmp/f"⟩
      [("a.json", Content.corrupt)] (fun _ => false) (10 ^ 18) (10 ^ 18 + 1)
      (by decide) (by decide) (by norm_num) (by norm_num) (by norm_num)
      (by norm_num) (by norm_num)).2.1

/-! ## C7: bulk codec round-trip -/

/-- Newline-freeness of a string: the property that makes a payload safe
to embed as one NDJSON line. -/
abbrev nlFree (s : String) : Prop := ∀ c ∈ s.data, c ≠ '\n'

/-- Concatenation preserves newline-freeness. -/
theorem nlFree_append {s t : String} (hs : nlFree s) (ht : nlFree t) :
    nlFree (s ++ t) := by
  intro c hc
  rw [String.data_append] at hc
  rcases List.mem_append.mp hc with h | h
  · exact hs c h
  · exact ht c h

/-- Digit characters are not newlines. -/
theorem digitCharNat_ne_nl : ∀ d < 10, Char.ofNat (48 + d) ≠ '\n' := by
  decide

/-- Lower-case hexadecimal digit characters are not newlines. -/
theorem hexCharNat_ne_nl :
    ∀ x < 16, Char.ofNat (if x < 10 then 48 + x else 87 + x) ≠ '\n' := by
  decide

/-- The JSON escape of any character contains no newline. -/
theorem jsonEscapeChar_no_nl (c : Char) :
    ∀ d ∈ jsonEscapeChar c, d ≠ '\n' := by
  unfold jsonEscapeChar
  by_cases h1 : c = '"'
  · rw [if_pos h1]; decide
  rw [if_neg h1]
  by_cases h2 : c = '\\'
  · rw [if_pos h2]; decide
  rw [if_neg h2]
  by_cases h3 : c = '\n'
  · rw [if_pos h3]; decide
  rw [if_neg h3]
  by_cases h4 : c = '\r'
  · rw [if_pos h4]; decide
  rw [if_neg h4]
  by_cases h5 : c = '\t'
  · rw [if_pos h5]; decide
  rw [if_neg h5]
  by_cases h6 : c = '<'
  · rw [if_pos h6]; decide
  rw [if_neg h6]
  by_cases h7 : c = '>'
  · rw [if_pos h7]; decide
  rw [if_neg h7]
  by_cases h8 : c = '&'
  · rw [if_pos h8]; decide
  rw [if_neg h8]
  by_cases h9 : c.toNat < 32
  · rw [if_pos h9]
    intro d hd
    simp only [List.mem_cons, List.not_mem_nil, or_false] at hd
    rcases hd with rfl | rfl | rfl | rfl | rfl | rfl
    · decide
    · decide
    · decide
    · decide
    · exact hexCharNat_ne_nl (c.toNat / 16) (by omega)
    · exact hexCharNat_ne_nl (c.toNat % 16) (Nat.mod_lt _ (by omega))
  · rw [if_neg h9]
    intro d hd
    simp only [List.mem_singleton] at hd
    subst hd
    intro hEq
    exact h9 (by rw [hEq]; decide)

/-- Folding the per-character escape over a string never introduces a
newline, given a newline-free accumulator. -/
theorem escape_foldr_no_nl :
    ∀ (l acc : List Char), (∀ d ∈ acc, d ≠ '\n') →
      ∀ d ∈ l.foldr (fun c acc => jsonEscapeChar c ++ acc) acc, d ≠ '\n' := by
  intro l
  induction l with
  | nil => intro acc hacc; exact hacc
  | cons x l ih =>
    intro acc hacc d hd
    rcases List.mem_append.mp hd with h | h
    · exact jsonEscapeChar_no_nl x d h
    · exact ih acc hacc d h

/-- JSON string literals contain no raw newline. -/
theorem jsonQuote_no_nl (s : String) : nlFree (jsonQuote s) := by
  intro c hc
  have hc' : c ∈ '"' :: s.data.foldr
      (fun c acc => jsonEscapeChar c ++ acc) ['"'] := hc
  rcases List.mem_cons.mp hc' with rfl | h
  · decide
  · exact escape_foldr_no_nl s.data ['"'] (by decide) c h

/-- Decimal renderings contain no newline. -/
theorem decDigits_no_nl : ∀ n, ∀ c ∈ decDigits n, c ≠ '\n' := by
  intro n
  induction n using Nat.strong_induction_on with
  | _ n ih =>
    intro c hc
    by_cases h : n < 10
    · rw [decDigits_lt_ten h] at hc
      simp only [List.mem_singleton] at hc
      subst hc
      exact digitCharNat_ne_nl n h
    · rw [decDigits_ge_ten (Nat.le_of_not_lt h)] at hc
      rcases List.mem_append.mp hc with h1 | h2
      · exact ih (n / 10) (Nat.div_lt_self (by omega) (by omega)) c h1
      · simp only [List.mem_singleton] at h2
        subst h2
        exact digitCharNat_ne_nl (n % 10) (Nat.mod_lt n (by omega))

/-- Integer renderings contain no newline. -/
theorem decIntChars_no_nl (n : Int) : ∀ c ∈ decIntChars n, c ≠ '\n' := by
  intro c hc
  unfold decIntChars at hc
  split_ifs at hc
  · rcases List.mem_cons.mp hc with rfl | h
    · decide
    · exact decDigits_no_nl n.natAbs c h
  · exact decDigits_no_nl n.natAbs c hc

/-- Serialized field values contain no newline. -/
theorem marshalJValue_no_nl (v : JValue) : nlFree (marshalJValue v) := by
  cases v with
  | str s => exact jsonQuote_no_nl s
  | num n => exact decIntChars_no_nl n
  | bool b => cases b <;> decide
  | null => decide

/-- Serialized field bindings contain no newline. -/
theorem marshalFieldsItems_no_nl : ∀ fs, nlFree (marshalFieldsItems fs)
  | [] => by decide
  | [p] =>
    nlFree_append (nlFree_append (jsonQuote_no_nl p.1) (by decide))
      (marshalJValue_no_nl p.2)
  | p :: q :: rest =>
    nlFree_append
      (nlFree_append
        (nlFree_append (nlFree_append (jsonQuote_no_nl p.1) (by decide))
          (marshalJValue_no_nl p.2))
        (by decide))
      (marshalFieldsItems_no_nl (q :: rest))

/-- The serialized `Fields` object contains no newline. -/
theorem marshalFieldsObj_no_nl (fs : List (String × JValue)) :
    nlFree (marshalFieldsObj fs) :=
  nlFree_append (nlFree_append (by decide) (marshalFieldsItems_no_nl fs))
    (by decide)

/-- A marshalled entry is a single line: `encoding/json` escapes every
newline of every field, so the document contains no raw newline. -/
theorem marshalLogEntry_no_nl (e : LogEntry) :
    nlFree (marshalLogEntry e) := by
  unfold marshalLogEntry
  have hm : nlFree (match e.Fields with
      | none => ""
      | some [] => ""
      | some fs => ",\"fields\":" ++ marshalFieldsObj fs) := by
    cases e.Fields with
    | none => decide
    | some fs =>
      cases fs with
      | nil => decide
      | cons p ps =>
        exact nlFree_append (by decide) (marshalFieldsObj_no_nl (p :: ps))
  refine nlFree_append ?_ (by decide)
  refine nlFree_append ?_ hm
  refine nlFree_append ?_ (jsonQuote_no_nl _)
  refine nlFree_append ?_ (by decide)
  refine nlFree_append ?_ (jsonQuote_no_nl _)
  refine nlFree_append ?_ (by decide)
  refine nlFree_append ?_ (jsonQuote_no_nl _)
  refine nlFree_append ?_ (by decide)
  refine nlFree_append ?_ (jsonQuote_no_nl _)
  exact nlFree_append (by decide) (by decide)

/-- The document the codec emits for an entry is newline-free. -/
theorem entryJson_no_nl (e : LogEntry) : nlFree ((entryJson e).1) :=
  marshalLogEntry_no_nl _

/-- The action header line is newline-free whenever the index name is. -/
theorem actionLine_no_nl {idx : String} (hidx : nlFree idx) :
    nlFree (actionLine idx) :=
  nlFree_append (nlFree_append (by decide) hidx) (by decide)

/-- Splitting after a leading newline. -/
theorem splitNl_nl_cons (v : List Char) :
    splitNl ('\n' :: v) = [] :: splitNl v := by
  simp [splitNl]

/-- Splitting after a leading non-newline character. -/
theorem splitNl_cons {c : Char} (h : c ≠ '\n') (cs : List Char) :
    splitNl (c :: cs) =
      match splitNl cs with
      | [] => [[c]]
      | l :: ls => (c :: l) :: ls := by
  simp [splitNl, h]

/-- A newline-terminated, newline-free line splits off whole. -/
theorem splitNl_append_nl {u : List Char} (hu : ∀ c ∈ u, c ≠ '\n')
    (v : List Char) : splitNl (u ++ '\n' :: v) = u :: splitNl v := by
  induction u with
  | nil => exact splitNl_nl_cons v
  | cons c u ih =>
    have hc : c ≠ '\n' := hu c (List.mem_cons_self c u)
    have ih' := ih (fun d hd => hu d (List.mem_cons_of_mem c hd))
    rw [List.cons_append, splitNl_cons hc, ih']

/-- The lines the codec emits: per entry in batch order, the action
header then the entry's JSON document. -/
def bulkLinesStr (idx : String) : List LogEntry → List String
  | [] => []
  | e :: rest => actionLine idx :: (entryJson e).1 :: bulkLinesStr idx rest

/-- The NDJSON body splits into exactly the emitted lines. -/
theorem ndjsonLines_bulkBody (idx : String) (hidx : nlFree idx) :
    ∀ es, ndjsonLines (bulkBody idx es) = bulkLinesStr idx es := by
  have hact := actionLine_no_nl hidx
  intro es
  induction es with
  | nil => rfl
  | cons e rest ih =>
    have hnl : ("\n" : String).data = ['\n'] := rfl
    have hdata : (bulkBody idx (e :: rest)).data =
        (actionLine idx).data ++ '\n' ::
          (((entryJson e).1).data ++ '\n' :: (bulkBody idx rest).data) := by
      simp [bulkBody, hnl]
    unfold ndjsonLines
    rw [hdata, splitNl_append_nl hact, splitNl_append_nl (entryJson_no_nl e)]
    unfold ndjsonLines at ih
    simp [bulkLinesStr, mk_data, ih]

/-- The odd-indexed lines of the emitted line list are the documents. -/
theorem oddIdx_bulkLinesStr (idx : String) :
    ∀ es, oddIdx (bulkLinesStr idx es) =
      es.map (fun e => (entryJson e).1)
  | [] => rfl
  | e :: rest => by
    simp only [bulkLinesStr, oddIdx, List.map_cons]
    rw [oddIdx_bulkLinesStr idx rest]

/-- C7: for any batch, gunzipping the compressed payload and splitting
the NDJSON body yields, per entry in batch order, the action header line
naming the target index followed by the entry's JSON document; decoding
the document lines yields exactly one JSON document per entry — the
marshalled form of that entry — in the same order. -/
theorem c7_bulk_codec_roundtrip (idx : String) (es : List LogEntry)
    (hidx : nlFree idx) :
    ndjsonLines (gunzip (gzipCompress (bulkBody idx es))) =
      bulkLinesStr idx es ∧
    ndjsonDocs (gunzip (gzipCompress (bulkBody idx es))) =
      es.map (fun e => (entryJson e).1) ∧
    (ndjsonDocs (gunzip (gzipCompress (bulkBody idx es)))).length =
      es.length := by
  have hlines : ndjsonLines (gunzip (gzipCompress (bulkBody idx es))) =
      bulkLinesStr idx es := ndjsonLines_bulkBody idx hidx es
  have hdocs : ndjsonDocs (gunzip (gzipCompress (bulkBody idx es))) =
      es.map (fun e => (entryJson e).1) := by
    unfold ndjsonDocs
    rw [hlines, oddIdx_bulkLinesStr]
  refine ⟨hlines, hdocs, ?_⟩
  rw [hdocs, List.length_map]

/-- C7 (witness): a concrete one-entry batch round-trips to exactly one
document. -/
theorem c7_bulk_codec_roundtrip_witness :
    ndjsonDocs (gunzip (gzipCompress (bulkBody "app-index"
        [{ AppType := "TEST", Timestamp := "2025-01-01T00:00:00Z",
           Level := "INFO", Message := "hello", Fields := none }]))) =
      [(entryJson
        { AppType := "TEST", Timestamp := "2025-01-01T00:00:00Z",
          Level := "INFO", Message := "hello", Fields := none }).1] :=
  (c7_bulk_codec_roundtrip "app-index"
      [{ AppType := "TEST", Timestamp := "2025-01-01T00:00:00Z",
         Level := "INFO", Message := "hello", Fields := none }]
      (by decide)).2.1

end Log
